import Mathlib

/-!
Verification of the experience-memory subsystem of the rlgraph repository.

The circular replay store (`ReplayMemory` in
`yarl/components/memories/replay_memory.py`, exercised by
`yarl/tests/test_components/test_replay_memory.py`) and the episodic ring
buffer are not shipped in this source tree; only their tests and callers
are.  Following the specification, the store is modelled here from the
spec's data model (section 3) and operation contracts (section 4), with
the behaviour pinned to the concrete assertions of the in-tree test file
wherever the spec leaves a choice.  The PPO agent's memory-spec check is
embedded directly from `rlgraph/agents/ppo_agent.py`.
-/

namespace RLGraph

/-- Modelled from the spec: one transition record.  The spec's per-field
columnar schema (states, actions, reward, terminals) is collapsed into a
payload plus the `terminals` flag, which is the only field any of the
store's control logic inspects. -/
structure Rec where
  payload : Nat
  terminal : Bool
deriving DecidableEq, Repr

instance : Inhabited Rec := ⟨⟨0, false⟩⟩

/-- Modelled from the spec: the circular record store state
(spec section 3).  `buffer` maps a physical slot to its record, `index`
is the write cursor, `size` the number of valid slots and
`totalInserted` the monotone insert counter.  The `attachNextStates`
flag is the `next_states` constructor argument of `ReplayMemory` in the
test file. -/
structure ReplayMemory where
  capacity : Nat
  attachNextStates : Bool
  buffer : Nat → Rec
  index : Nat
  size : Nat
  totalInserted : Nat

/-- Modelled from the spec: a freshly constructed store of the given
capacity: cursor and size start at zero, buffer slots hold the default
record (never readable while size is 0). -/
def ReplayMemory.new (capacity : Nat) (attach : Bool) : ReplayMemory :=
  ⟨capacity, attach, fun _ => default, 0, 0, 0⟩

/-- Write one record at physical slot `p`. -/
def writeSlot (buf : Nat → Rec) (p : Nat) (r : Rec) : Nat → Rec :=
  fun q => if q = p then r else buf q

/-- Modelled from the spec (section 4.1): positional batch write, record
`i` of the batch goes to slot `(idx + i) mod cap`, applied in batch
order so that the last writer wins. -/
def writeAll (cap : Nat) : (Nat → Rec) → Nat → List Rec → (Nat → Rec)
  | buf, _, [] => buf
  | buf, idx, r :: rs => writeAll cap (writeSlot buf (idx % cap) r) (idx + 1) rs

/-- Modelled from the spec (section 4.1): `insert(batch of K records)`.
After the positional writes, the cursor advances by `K` mod capacity,
the insert counter grows by `K`, and
`size := min(total_inserted, capacity)`. -/
def ReplayMemory.insert (s : ReplayMemory) (batch : List Rec) : ReplayMemory :=
  { s with
    buffer := writeAll s.capacity s.buffer s.index batch,
    index := (s.index + batch.length) % s.capacity,
    size := min (s.totalInserted + batch.length) s.capacity,
    totalInserted := s.totalInserted + batch.length }

/-- Physical slot of logical index `i`: logical 0 is the oldest
surviving record at `(index - size) mod capacity` (spec section 4.1,
read contract). -/
def ReplayMemory.physOf (s : ReplayMemory) (i : Nat) : Nat :=
  (s.index + s.capacity - s.size + i) % s.capacity

/-- The record at logical index `i` (no bounds check). -/
def ReplayMemory.logRead (s : ReplayMemory) (i : Nat) : Rec :=
  s.buffer (s.physOf i)

/-- Modelled from the spec (section 4.1): `read(field, index)` returns
the element at a logical index when `0 <= index < size` and fails with
an OUT_OF_RANGE condition (here: `none`) otherwise. -/
def ReplayMemory.read (s : ReplayMemory) (i : Nat) : Option Rec :=
  if i < s.size then some (s.logRead i) else none

/-- The record one physical slot after logical index `i`, the value a
`next_states` gather reads. -/
def ReplayMemory.succRead (s : ReplayMemory) (i : Nat) : Rec :=
  s.buffer ((s.physOf i + 1) % s.capacity)

/-- Modelled from the spec (sections 4.2 and 9): the sampling candidate
set.  With next-record attachment active a logical index is a candidate
exactly when its record is non-terminal; without attachment every index
in `[0, size)` is a candidate.  Section 9 of the spec resolves its own
open question this way — only terminal records are excluded, not the
newest slot — which is also forced by the in-tree test
(`test_batch_retrieve` samples 2 of 2 just-inserted non-terminal
records and asserts both are returned). -/
def ReplayMemory.candidates (s : ReplayMemory) : List Nat :=
  (List.range s.size).filter fun i => !s.attachNextStates || !(s.logRead i).terminal

/-- A sampled batch: the drawn records, and optionally their successor
records under the `next_states` key. -/
structure Batch where
  records : List Rec
  next_states : Option (List Rec)
deriving DecidableEq, Repr

/-- Modelled from the spec (section 4.2): `sample(num_records)` draws
`min(num_records, |candidates|)` indices from the candidate set without
replacement and gathers their records; with attachment active it also
gathers each drawn index's successor.  The uniform random draw is
modelled by a deterministic choice of candidates (the claims under
check concern cardinality, candidacy and field presence, none of which
depend on which candidates are drawn). -/
def ReplayMemory.sample (s : ReplayMemory) (n : Nat) : Batch :=
  { records := (s.candidates.take n).map s.logRead,
    next_states :=
      if s.attachNextStates then some ((s.candidates.take n).map s.succRead)
      else none }

/-- The valid window: all logical records, oldest first. -/
def ReplayMemory.window (s : ReplayMemory) : List Rec :=
  (List.range s.size).map s.logRead

/-- Modelled from the spec (section 4.3): `get_records(n)`, the `n` most
recent logical records (all of them when `n > size`), oldest first. -/
def ReplayMemory.getRecords (s : ReplayMemory) (n : Nat) : List Rec :=
  s.window.drop (s.size - n)

/-- Positions of terminal records inside a window. -/
def terminalPositions (w : List Rec) : List Nat :=
  (List.range w.length).filter fun p => (w.getD p default).terminal

/-- Modelled from the spec (section 4.3): the spans of completed
episodes in a window, oldest first.  An episode is the maximal run of
records between two terminal markers, inclusive of the terminal that
ends it, so each span pairs consecutive terminal positions; a run at
the window's oldest edge with no preceding terminal marker (truncated
by overwrite) yields no span. -/
def episodeSpans (w : List Rec) : List (Nat × Nat) :=
  (terminalPositions w).zip (terminalPositions w).tail

/-- The records of one episode span `(t, u)`: positions `t+1 .. u`. -/
def spanRecords (w : List Rec) (sp : Nat × Nat) : List Rec :=
  (w.drop (sp.1 + 1)).take (sp.2 - sp.1)

/-- Modelled from the spec (section 4.3): `get_episodes(n)` returns the
`n` most recently completed episodes (all of them when fewer exist). -/
def ReplayMemory.getEpisodes (s : ReplayMemory) (n : Nat) : List (List Rec) :=
  ((episodeSpans s.window).drop ((episodeSpans s.window).length - n)).map
    (spanRecords s.window)

/-- Insert a stream of records one call at a time. -/
def insertStream (cap : Nat) (attach : Bool) (xs : List Rec) : ReplayMemory :=
  xs.foldl (fun s r => s.insert [r]) (ReplayMemory.new cap attach)

/-- Run a sequence of batched insert calls on a fresh store. -/
def runInserts (cap : Nat) (attach : Bool) (bs : List (List Rec)) : ReplayMemory :=
  bs.foldl ReplayMemory.insert (ReplayMemory.new cap attach)

/-- Total number of records across a sequence of batches. -/
def totalOf (bs : List (List Rec)) : Nat :=
  (bs.map List.length).sum

/-- Well-formed store: the bookkeeping invariants of spec section 3. -/
def ReplayMemory.WF (s : ReplayMemory) : Prop :=
  s.index = s.totalInserted % s.capacity ∧
  s.size = min s.totalInserted s.capacity

/-- The memory API as an operation algebra, to state which operations
mutate the store. -/
inductive MemOp where
  | insertOp : List Rec → MemOp
  | sampleOp : Nat → MemOp
  | readOp : Nat → MemOp
  | getRecordsOp : Nat → MemOp
  | getEpisodesOp : Nat → MemOp

/-- Result of one memory operation. -/
inductive MemOut where
  | ounit : MemOut
  | obatch : Batch → MemOut
  | oread : Option Rec → MemOut
  | orecs : List Rec → MemOut
  | oepisodes : List (List Rec) → MemOut

/-- Run one operation against the store, returning its result and the
store state afterwards. -/
def runOp : MemOp → ReplayMemory → MemOut × ReplayMemory
  | MemOp.insertOp b, s => (MemOut.ounit, s.insert b)
  | MemOp.sampleOp n, s => (MemOut.obatch (s.sample n), s)
  | MemOp.readOp i, s => (MemOut.oread (s.read i), s)
  | MemOp.getRecordsOp n, s => (MemOut.orecs (s.getRecords n), s)
  | MemOp.getEpisodesOp n, s => (MemOut.oepisodes (s.getEpisodes n), s)

/-- Embedded from `rlgraph/agents/ppo_agent.py`, `PPOAgent.__init__`:
`assert memory_spec["type"] == "ring_buffer", "PPO memory must be
ring-buffer for episode-handling."` — construction proceeds past the
check exactly when the spec's type field is the string below. -/
def ppoMemorySpecCheck (memoryType : String) : Except String Unit :=
  if memoryType = "ring_buffer" then Except.ok ()
  else Except.error "PPO memory must be ring-buffer for episode-handling."

/-- A non-terminal record. -/
def nonTerm : Rec := ⟨0, false⟩

/-- A terminal record. -/
def termRec : Rec := ⟨1, true⟩

/-- Store of capacity 10 holding two just-inserted non-terminal records,
the state of `test_batch_retrieve` after its first insert. -/
def twoNT : ReplayMemory := insertStream 10 true (List.replicate 2 nonTerm)

/-- Store of capacity 10 after inserting 2 non-terminal, then 8 more
non-terminal, then 5 terminal records (claim C2's scenario). -/
def mixedStore : ReplayMemory :=
  insertStream 10 true
    (List.replicate 2 nonTerm ++ List.replicate 8 nonTerm ++ List.replicate 5 termRec)

/-- Eleven pairwise distinguishable records: payload `k` marks the
`k`-th record ever inserted. -/
def elevenRecords : List Rec := (List.range 11).map fun k => ⟨k, false⟩

/-- A store with one complete episode in its window (records 2..4,
opened by the terminal marker at window position 1). -/
def demoEp : ReplayMemory :=
  insertStream 10 true [nonTerm, termRec, nonTerm, nonTerm, termRec]

/-! ## Helper lemmas -/

@[simp] lemma insert_capacity (s : ReplayMemory) (b : List Rec) :
    (s.insert b).capacity = s.capacity := rfl

@[simp] lemma insert_attach (s : ReplayMemory) (b : List Rec) :
    (s.insert b).attachNextStates = s.attachNextStates := rfl

@[simp] lemma insert_totalInserted (s : ReplayMemory) (b : List Rec) :
    (s.insert b).totalInserted = s.totalInserted + b.length := rfl

@[simp] lemma insert_index (s : ReplayMemory) (b : List Rec) :
    (s.insert b).index = (s.index + b.length) % s.capacity := rfl

@[simp] lemma insert_size (s : ReplayMemory) (b : List Rec) :
    (s.insert b).size = min (s.totalInserted + b.length) s.capacity := rfl

lemma insert_buffer (s : ReplayMemory) (b : List Rec) :
    (s.insert b).buffer = writeAll s.capacity s.buffer s.index b := rfl

lemma insert_single_buffer (s : ReplayMemory) (r : Rec) :
    (s.insert [r]).buffer = writeSlot s.buffer (s.index % s.capacity) r := rfl

lemma insertStream_snoc (cap : Nat) (attach : Bool) (xs : List Rec) (r : Rec) :
    insertStream cap attach (xs ++ [r]) = (insertStream cap attach xs).insert [r] := by
  simp [insertStream, List.foldl_append]

lemma succRead_eq_logRead (s : ReplayMemory) (i : Nat) :
    s.succRead i = s.logRead (i + 1) := by
  unfold ReplayMemory.succRead ReplayMemory.logRead ReplayMemory.physOf
  rw [Nat.mod_add_mod]
  congr 2

/-! ## Claim theorems -/

/-- C9: a freshly constructed store, before any insert call, has
`size == 0` and write cursor (`index`) `== 0`. -/
theorem c9_fresh_store : ∀ (cap : Nat) (attach : Bool),
    (ReplayMemory.new cap attach).size = 0 ∧ (ReplayMemory.new cap attach).index = 0 :=
  fun _ _ => ⟨rfl, rfl⟩

/-- C10: the PPOAgent memory-spec check passes exactly when the spec's
type field is "ring_buffer", and fails with the assertion message for
every other type string. -/
theorem c10_ppo_memory_check : ∀ (t : String),
    (ppoMemorySpecCheck t = Except.ok () ↔ t = "ring_buffer") ∧
    (t ≠ "ring_buffer" →
      ppoMemorySpecCheck t
        = Except.error "PPO memory must be ring-buffer for episode-handling.") := by
  intro t
  refine ⟨⟨?_, ?_⟩, ?_⟩
  · intro h
    by_contra hne
    simp [ppoMemorySpecCheck, hne] at h
  · intro h
    simp [ppoMemorySpecCheck, h]
  · intro h
    simp [ppoMemorySpecCheck, h]

theorem c10_witness :
    ppoMemorySpecCheck "replay"
      = Except.error "PPO memory must be ring-buffer for episode-handling." :=
  (c10_ppo_memory_check "replay").2 (by decide)

/-- C3: for every store state and every `n`, `sample(n)` returns exactly
`min(n, |candidates|)` records (a total function, never an error), and
on an empty store it returns an empty batch. -/
theorem c3_sample_clamps : ∀ (s : ReplayMemory) (n : Nat),
    (s.sample n).records.length = min n s.candidates.length ∧
    (s.size = 0 → (s.sample n).records = []) := by
  intro s n
  constructor
  · simp [ReplayMemory.sample]
  · intro h
    simp [ReplayMemory.sample, ReplayMemory.candidates, h]

theorem c3_witness : ((ReplayMemory.new 10 true).sample 5).records = [] :=
  (c3_sample_clamps (ReplayMemory.new 10 true) 5).2 rfl

/-- C8: every operation other than insert leaves the store state
unchanged, and `get_records(n)` called twice with no intervening insert
returns identical results. -/
theorem c8_reads_pure :
    (∀ (op : MemOp) (s : ReplayMemory),
      (∀ b, op ≠ MemOp.insertOp b) → (runOp op s).2 = s) ∧
    (∀ (s : ReplayMemory) (n : Nat),
      (runOp (MemOp.getRecordsOp n) ((runOp (MemOp.getRecordsOp n) s).2)).1
        = (runOp (MemOp.getRecordsOp n) s).1) := by
  constructor
  · intro op s h
    cases op with
    | insertOp b => exact absurd rfl (h b)
    | sampleOp n => rfl
    | readOp i => rfl
    | getRecordsOp n => rfl
    | getEpisodesOp n => rfl
  · intro s n
    rfl

theorem c8_witness :
    (runOp (MemOp.sampleOp 3) (ReplayMemory.new 10 true)).2 = ReplayMemory.new 10 true :=
  c8_reads_pure.1 (MemOp.sampleOp 3) (ReplayMemory.new 10 true)
    (fun _ h => MemOp.noConfusion h)

/-- C6: a sampled batch carries the `next_states` field exactly when the
store was constructed with next-record attachment; when present it
holds, for each drawn index, the record one logical position later,
one per drawn record. -/
theorem c6_next_states_presence : ∀ (s : ReplayMemory) (n : Nat),
    (s.attachNextStates = false → (s.sample n).next_states = none) ∧
    (s.attachNextStates = true →
      ∃ ns, (s.sample n).next_states = some ns ∧
        ns.length = (s.sample n).records.length ∧
        ns = (s.candidates.take n).map fun i => s.logRead (i + 1)) := by
  intro s n
  constructor
  · intro h
    simp [ReplayMemory.sample, h]
  · intro h
    refine ⟨(s.candidates.take n).map s.succRead, ?_, ?_, ?_⟩
    · simp [ReplayMemory.sample, h]
    · simp [ReplayMemory.sample]
    · simp only [show s.succRead = fun i => s.logRead (i + 1) from
        funext (succRead_eq_logRead s)]

lemma writeAll_mod (cap : Nat) : ∀ (b : List Rec) (buf : Nat → Rec) (a : Nat),
    writeAll cap buf (a % cap) b = writeAll cap buf a b := by
  intro b
  induction b with
  | nil => intro buf a; rfl
  | cons r rs ih =>
    intro buf a
    show writeAll cap (writeSlot buf (a % cap % cap) r) (a % cap + 1) rs
        = writeAll cap (writeSlot buf (a % cap) r) (a + 1) rs
    rw [Nat.mod_mod_of_dvd a dvd_rfl]
    calc writeAll cap (writeSlot buf (a % cap) r) (a % cap + 1) rs
        = writeAll cap (writeSlot buf (a % cap) r) ((a % cap + 1) % cap) rs :=
          (ih _ _).symm
      _ = writeAll cap (writeSlot buf (a % cap) r) ((a + 1) % cap) rs := by
          rw [Nat.mod_add_mod]
      _ = writeAll cap (writeSlot buf (a % cap) r) (a + 1) rs := ih _ _

lemma writeAll_append (cap : Nat) : ∀ (b1 b2 : List Rec) (buf : Nat → Rec) (idx : Nat),
    writeAll cap buf idx (b1 ++ b2)
      = writeAll cap (writeAll cap buf idx b1) (idx + b1.length) b2 := by
  intro b1
  induction b1 with
  | nil => intro b2 buf idx; simp [writeAll]
  | cons r rs ih =>
    intro b2 buf idx
    show writeAll cap (writeSlot buf (idx % cap) r) (idx + 1) (rs ++ b2) = _
    rw [ih]
    have harith : idx + 1 + rs.length = idx + (r :: rs).length := by
      simp [List.length_cons]
      omega
    rw [harith]
    rfl

lemma insert_nil (s : ReplayMemory) (h : s.WF) : s.insert [] = s := by
  obtain ⟨hidx, hsize⟩ := h
  obtain ⟨cap, a, buf, idx, sz, tot⟩ := s
  simp only at hidx hsize
  subst hidx hsize
  simp [ReplayMemory.insert, writeAll, Nat.mod_mod_of_dvd tot dvd_rfl]

lemma insert_append (s : ReplayMemory) (b1 b2 : List Rec) :
    s.insert (b1 ++ b2) = (s.insert b1).insert b2 := by
  obtain ⟨cap, a, buf, idx, sz, tot⟩ := s
  simp only [ReplayMemory.insert, ReplayMemory.mk.injEq, List.length_append,
    true_and]
  refine ⟨?_, ?_, ?_, ?_⟩
  · rw [writeAll_append, writeAll_mod]
  · rw [Nat.mod_add_mod]
    congr 1
    omega
  · congr 1
    omega
  · omega

lemma insert_WF (s : ReplayMemory) (b : List Rec) (h : s.WF) : (s.insert b).WF := by
  obtain ⟨hidx, hsize⟩ := h
  constructor
  · show (s.index + b.length) % s.capacity = (s.totalInserted + b.length) % s.capacity
    rw [hidx, Nat.mod_add_mod]
  · rfl

/-- C5: on a well-formed store, inserting an empty batch is a no-op,
batched insertion composes by concatenation (any batch size, including
over capacity, is accepted), and a batch insert equals inserting the
batch as a sequential stream of single records — so a later record in
the batch that lands on the same slot as an earlier one overwrites it
(last-writer-wins). -/
theorem c5_batch_insert : ∀ (s : ReplayMemory), s.WF →
    (s.insert [] = s) ∧
    (∀ b1 b2, s.insert (b1 ++ b2) = (s.insert b1).insert b2) ∧
    (∀ b, s.insert b = b.foldl (fun t r => t.insert [r]) s) := by
  intro s h
  refine ⟨insert_nil s h, fun b1 b2 => insert_append s b1 b2, ?_⟩
  intro b
  induction b generalizing s with
  | nil => exact insert_nil s h
  | cons r rs ih =>
    calc s.insert (r :: rs)
        = s.insert ([r] ++ rs) := rfl
      _ = (s.insert [r]).insert rs := insert_append s [r] rs
      _ = rs.foldl (fun t u => t.insert [u]) (s.insert [r]) :=
          ih (s.insert [r]) (insert_WF s [r] h)
      _ = (r :: rs).foldl (fun t u => t.insert [u]) s := rfl

theorem c5_witness :
    ((ReplayMemory.new 10 true).insert [] = ReplayMemory.new 10 true) ∧
    ((ReplayMemory.new 10 true).insert (List.replicate 12 nonTerm)
      = (List.replicate 12 nonTerm).foldl (fun t r => t.insert [r])
          (ReplayMemory.new 10 true)) :=
  ⟨(c5_batch_insert (ReplayMemory.new 10 true) ⟨rfl, rfl⟩).1,
   (c5_batch_insert (ReplayMemory.new 10 true) ⟨rfl, rfl⟩).2.2
     (List.replicate 12 nonTerm)⟩

/-- C7: `get_episodes(n)` returns `min(n, #completed-episodes)` episodes
— all that exist when fewer than `n`, never an error — and every
returned episode's starting terminal marker is itself a terminal record
inside the valid window, so an episode whose opening marker was
truncated by overwrite is never returned. -/
theorem c7_episode_completeness : ∀ (s : ReplayMemory) (n : Nat),
    ((s.getEpisodes n).length = min n (episodeSpans s.window).length) ∧
    (∀ sp, sp ∈ (episodeSpans s.window).drop ((episodeSpans s.window).length - n) →
      sp.1 < s.window.length ∧ (s.window.getD sp.1 default).terminal = true) := by
  intro s n
  constructor
  · simp only [ReplayMemory.getEpisodes, List.length_map, List.length_drop]
    omega
  · intro sp hsp
    have h1 : sp ∈ episodeSpans s.window := List.mem_of_mem_drop hsp
    have h2 : sp.1 ∈ terminalPositions s.window := by
      obtain ⟨a, b⟩ := sp
      exact (List.of_mem_zip h1).1
    rw [terminalPositions, List.mem_filter, List.mem_range] at h2
    exact h2

theorem c7_witness :
    ((demoEp.getEpisodes 1).length = min 1 (episodeSpans demoEp.window).length) ∧
    ((1 : Nat) < demoEp.window.length ∧
      (demoEp.window.getD 1 default).terminal = true) :=
  ⟨(c7_episode_completeness demoEp 1).1,
   (c7_episode_completeness demoEp 1).2 (1, 4) (by decide)⟩

lemma runInserts_spec (cap : Nat) (attach : Bool) :
    ∀ (bs : List (List Rec)),
      (runInserts cap attach bs).capacity = cap ∧
      (runInserts cap attach bs).totalInserted = totalOf bs ∧
      (runInserts cap attach bs).index = totalOf bs % cap ∧
      (runInserts cap attach bs).size = min (totalOf bs) cap := by
  intro bs
  induction bs using List.reverseRecOn with
  | nil =>
    refine ⟨rfl, rfl, ?_, ?_⟩
    · simp [runInserts, totalOf, ReplayMemory.new]
    · simp [runInserts, totalOf, ReplayMemory.new]
  | append_singleton bs b ih =>
    obtain ⟨hcap, htot, hidx, _⟩ := ih
    have hrun : runInserts cap attach (bs ++ [b]) = (runInserts cap attach bs).insert b := by
      simp [runInserts, List.foldl_append]
    have htl : totalOf (bs ++ [b]) = totalOf bs + b.length := by
      simp [totalOf]
    rw [hrun, htl]
    simp only [insert_capacity, insert_totalInserted, insert_index, insert_size,
      hcap, htot, hidx]
    refine ⟨trivial, trivial, ?_, trivial⟩
    rw [Nat.mod_add_mod]

/-- C1: for every sequence of batched inserts into a store of positive
capacity totalling `T` records, `size == min(T, capacity)` and the write
cursor equals `T mod capacity`; in particular inserting `capacity + 1`
records into an empty store of capacity 10 leaves `size == 10` and
cursor `== 1`. -/
theorem c1_capacity_invariant :
    (∀ (cap : Nat), 0 < cap → ∀ (attach : Bool) (bs : List (List Rec)),
      (runInserts cap attach bs).size = min (totalOf bs) cap ∧
      (runInserts cap attach bs).index = totalOf bs % cap) ∧
    ((runInserts 10 true [List.replicate 11 nonTerm]).size = 10 ∧
     (runInserts 10 true [List.replicate 11 nonTerm]).index = 1) := by
  constructor
  · intro cap _ attach bs
    obtain ⟨_, _, hidx, hsize⟩ := runInserts_spec cap attach bs
    exact ⟨hsize, hidx⟩
  · exact ⟨by decide, by decide⟩

theorem c1_witness :
    (runInserts 10 true [List.replicate 11 nonTerm]).size
      = min (totalOf [List.replicate 11 nonTerm]) 10 ∧
    (runInserts 10 true [List.replicate 11 nonTerm]).index
      = totalOf [List.replicate 11 nonTerm] % 10 :=
  c1_capacity_invariant.1 10 (by decide) true [List.replicate 11 nonTerm]

lemma insertStream_spec (cap : Nat) (attach : Bool) (hcap : 0 < cap) :
    ∀ (xs : List Rec),
      (insertStream cap attach xs).capacity = cap ∧
      (insertStream cap attach xs).totalInserted = xs.length ∧
      (insertStream cap attach xs).index = xs.length % cap ∧
      (insertStream cap attach xs).size = min xs.length cap ∧
      ∀ i, i < min xs.length cap →
        (insertStream cap attach xs).buffer
            ((xs.length % cap + cap - min xs.length cap + i) % cap)
          = xs.getD (xs.length - min xs.length cap + i) default := by
  intro xs
  induction xs using List.reverseRecOn with
  | nil =>
    refine ⟨rfl, rfl, by simp [insertStream, ReplayMemory.new],
      by simp [insertStream, ReplayMemory.new], ?_⟩
    intro i hi
    simp at hi
  | append_singleton xs r ih =>
    obtain ⟨hcap', htot, hidx, hsize, hbuf⟩ := ih
    rw [insertStream_snoc]
    have hlen : (xs ++ [r]).length = xs.length + 1 := by simp
    have hbuf' : ((insertStream cap attach xs).insert [r]).buffer
        = writeSlot (insertStream cap attach xs).buffer (xs.length % cap) r := by
      rw [insert_single_buffer, hidx, hcap', Nat.mod_mod_of_dvd _ dvd_rfl]
    refine ⟨by simp [hcap'], by simp [htot, hlen], ?_, ?_, ?_⟩
    · simp only [insert_index, hidx, hcap', List.length_cons, List.length_nil, hlen]
      rw [Nat.mod_add_mod]
    · simp only [insert_size, htot, hcap', List.length_cons, List.length_nil, hlen]
    · intro i hi
      rw [hlen] at hi ⊢
      rw [hbuf']
      rcases Nat.lt_or_ge xs.length cap with hA | hB
      · -- store not yet full: the new record lands at physical slot xs.length
        have hminL1 : min (xs.length + 1) cap = xs.length + 1 := Nat.min_eq_left hA
        rw [hminL1] at hi ⊢
        have hphys : ((xs.length + 1) % cap + cap - (xs.length + 1) + i) % cap = i := by
          rcases Nat.lt_or_ge (xs.length + 1) cap with h1 | h1
          · rw [Nat.mod_eq_of_lt h1]
            rw [show xs.length + 1 + cap - (xs.length + 1) + i = cap + i by omega]
            rw [Nat.add_mod_left]
            exact Nat.mod_eq_of_lt (by omega)
          · have hEq : xs.length + 1 = cap := by omega
            rw [hEq, Nat.mod_self]
            rw [show 0 + cap - cap + i = i by omega]
            exact Nat.mod_eq_of_lt (by omega)
        rw [hphys]
        rw [show xs.length + 1 - (xs.length + 1) + i = i by omega]
        rw [Nat.mod_eq_of_lt hA]
        simp only [writeSlot]
        rcases Nat.lt_or_ge i xs.length with hiL | hiL
        · rw [if_neg (by omega : ¬ i = xs.length)]
          have h0 := hbuf i (by rw [Nat.min_eq_left (le_of_lt hA)]; exact hiL)
          rw [Nat.min_eq_left (le_of_lt hA)] at h0
          have hph2 : (xs.length % cap + cap - xs.length + i) % cap = i := by
            rw [Nat.mod_eq_of_lt hA]
            rw [show xs.length + cap - xs.length + i = cap + i by omega]
            rw [Nat.add_mod_left]
            exact Nat.mod_eq_of_lt (by omega)
          rw [hph2, show xs.length - xs.length + i = i by omega] at h0
          rw [h0]
          exact (List.getD_append xs [r] default i hiL).symm
        · have hiEq : i = xs.length := by omega
          rw [if_pos hiEq, hiEq]
          rw [List.getD_append_right xs [r] default xs.length (le_refl _)]
          simp
      · -- store already full: the new record evicts the oldest one
        have hminL : min xs.length cap = cap := Nat.min_eq_right hB
        have hminL1 : min (xs.length + 1) cap = cap := Nat.min_eq_right (by omega)
        rw [hminL1] at hi ⊢
        rw [show (xs.length + 1) % cap + cap - cap + i = (xs.length + 1) % cap + i by omega]
        rw [Nat.mod_add_mod]
        simp only [writeSlot]
        rcases Nat.lt_or_ge (i + 1) cap with hsm | hlast
        · have ha : xs.length % cap < cap := Nat.mod_lt _ hcap
          have hne : ¬ ((xs.length + 1 + i) % cap = xs.length % cap) := by
            intro heq
            rw [show xs.length + 1 + i = xs.length + (1 + i) by omega] at heq
            rw [Nat.add_mod, Nat.mod_eq_of_lt (show 1 + i < cap by omega)] at heq
            rcases Nat.lt_or_ge (xs.length % cap + (1 + i)) cap with h2 | h2
            · rw [Nat.mod_eq_of_lt h2] at heq
              omega
            · rw [Nat.mod_eq_sub_mod h2, Nat.mod_eq_of_lt (by omega)] at heq
              omega
          rw [if_neg hne]
          have h0 := hbuf (i + 1) (by rw [hminL]; exact hsm)
          rw [hminL] at h0
          rw [show xs.length % cap + cap - cap + (i + 1) = xs.length % cap + (i + 1) by omega,
            Nat.mod_add_mod,
            show xs.length + (i + 1) = xs.length + 1 + i by omega] at h0
          rw [h0]
          have hgd : (xs ++ [r]).getD (xs.length + 1 - cap + i) default
              = xs.getD (xs.length + 1 - cap + i) default :=
            List.getD_append xs [r] default _ (by omega)
          rw [hgd]
          congr 1
          omega
        · have hieq : xs.length + 1 + i = xs.length + cap := by omega
          rw [hieq, Nat.add_mod_right, if_pos rfl]
          rw [show xs.length + 1 - cap + i = xs.length by omega]
          rw [List.getD_append_right xs [r] default xs.length (le_refl _)]
          simp

/-- C4: `read(i)` returns the stored element exactly when
`0 <= i < size` and fails (OUT_OF_RANGE, modelled as `none`) for every
index at or beyond `size`; logical index 0 is the oldest surviving
record, so after inserting a stream of records one at a time, logical
index `i` holds stream element `length - size + i` — in particular,
after `capacity + 1` single inserts into a store of capacity 10,
`size == capacity` and logical index 0 holds the second record ever
inserted. -/
theorem c4_read_bounds :
    (∀ (s : ReplayMemory) (i : Nat), s.size ≤ i → s.read i = none) ∧
    (∀ (s : ReplayMemory) (i : Nat), i < s.size → s.read i = some (s.logRead i)) ∧
    (∀ (cap : Nat) (attach : Bool) (xs : List Rec) (i : Nat), 0 < cap →
      i < min xs.length cap →
      (insertStream cap attach xs).read i
        = some (xs.getD (xs.length - min xs.length cap + i) default)) ∧
    ((insertStream 10 true elevenRecords).size = 10 ∧
     (insertStream 10 true elevenRecords).read 0 = some ⟨1, false⟩) := by
  refine ⟨?_, ?_, ?_, ?_⟩
  · intro s i h
    unfold ReplayMemory.read
    rw [if_neg (by omega)]
  · intro s i h
    unfold ReplayMemory.read
    rw [if_pos h]
  · intro cap attach xs i hcap hi
    obtain ⟨hcap', _, hidx, hsize, hbuf⟩ := insertStream_spec cap attach hcap xs
    have hlt : i < (insertStream cap attach xs).size := by
      rw [hsize]
      exact hi
    unfold ReplayMemory.read
    rw [if_pos hlt]
    unfold ReplayMemory.logRead ReplayMemory.physOf
    rw [hidx, hsize, hcap']
    exact congrArg some (hbuf i hi)
  · exact ⟨by decide, by decide⟩

theorem c4_witness :
    (insertStream 10 true elevenRecords).read 0
      = some (elevenRecords.getD
          (elevenRecords.length - min elevenRecords.length 10 + 0) default) :=
  c4_read_bounds.2.2.1 10 true elevenRecords 0 (by decide) (by decide)

/-- C2 as stated is false on the modelled behaviour: with next-record
attachment active, after inserting two non-terminal records the newest
logical index 1 is a sampling candidate (the in-tree test samples it:
`sample(2)` returns 2 records) although no successor record exists
(`1 + 1` is not below `size`). -/
theorem c2_counterexample :
    ¬ (∀ (s : ReplayMemory) (i : Nat), s.attachNextStates = true → i ∈ s.candidates →
        (s.logRead i).terminal = false ∧ i + 1 < s.size) := by
  intro h
  have h1 := (h twoNT 1 (by decide) (by decide)).2
  exact absurd h1 (by decide)

/-- C2 (amended): with next-record attachment active, a logical index is
a sampling candidate exactly when it lies in the valid window and its
record is not terminal (the newest record is not excluded);
consequently, after inserting 2 non-terminal, then 8 more non-terminal,
then 5 terminal records into a store of capacity 10, `sample(capacity)`
returns exactly `capacity - 5` records. -/
theorem c2_terminal_exclusion :
    (∀ (s : ReplayMemory) (i : Nat), s.attachNextStates = true →
      (i ∈ s.candidates ↔ i < s.size ∧ (s.logRead i).terminal = false)) ∧
    ((mixedStore.sample 10).records.length = 10 - 5) := by
  constructor
  · intro s i h
    simp only [ReplayMemory.candidates, List.mem_filter, List.mem_range, h]
    simp
  · decide

theorem c2_witness :
    0 ∈ mixedStore.candidates ↔
      0 < mixedStore.size ∧ (mixedStore.logRead 0).terminal = false :=
  c2_terminal_exclusion.1 mixedStore 0 (by decide)

theorem c6_witness :
    (((ReplayMemory.new 10 false).sample 2).next_states = none) ∧
    (∃ ns, ((ReplayMemory.new 10 true).sample 2).next_states = some ns ∧
      ns.length = ((ReplayMemory.new 10 true).sample 2).records.length ∧
      ns = ((ReplayMemory.new 10 true).candidates.take 2).map
        fun i => (ReplayMemory.new 10 true).logRead (i + 1)) :=
  ⟨(c6_next_states_presence (ReplayMemory.new 10 false) 2).1 rfl,
   (c6_next_states_presence (ReplayMemory.new 10 true) 2).2 rfl⟩

end RLGraph
